import Mathlib

/-!
Verification of `pulp_puppet/plugins/distributors/installdistributor.py`.

Paths are modelled as lists of characters (`PStr`).  The POSIX behaviour of
`os.path.join` and `os.path.normpath` is embedded faithfully, as is the
loop of `_archive_paths_are_safe` (including its in-loop mutation of the
`destination` variable), the `DetailReport` accumulator, the destination
clearing loop of `_clear_destination_directory`, and the orchestration of
`publish_repo`.
-/

set_option autoImplicit false

namespace InstallDistributor

/-- A path string, modelled as its list of characters. -/
abbrev PStr := List Char

/-- `destination.endswith('/')` followed by `destination += '/'` when false:
the destination with a guaranteed trailing separator. -/
def withSlash (d : PStr) : PStr :=
  if d.getLast? = some '/' then d else d ++ ['/']

/-- POSIX `os.path.join(a, b)`: if `b` is absolute it wins; otherwise it is
appended to `a`, inserting a separator unless `a` is empty or already ends
with one. -/
def pJoin (a b : PStr) : PStr :=
  if b.head? = some '/' then b
  else if a = [] then b
  else if a.getLast? = some '/' then a ++ b
  else a ++ '/' :: b

/-- The component loop of POSIX `os.path.normpath`: `acc` holds the
`new_comps` list in reverse (most recent component first). -/
def normComps (slashes : Nat) : List PStr → List PStr → List PStr
  | acc, [] => acc
  | acc, c :: rest =>
    if c = [] ∨ c = ['.'] then normComps slashes acc rest
    else if c ≠ ['.', '.'] ∨ (slashes = 0 ∧ acc = []) ∨ acc.head? = some ['.', '.'] then
      normComps slashes (c :: acc) rest
    else
      normComps slashes acc.tail rest

/-- POSIX `os.path.normpath`: collapse `.` and `..` components lexically,
preserving one or two leading slashes. -/
def normpath (p : PStr) : PStr :=
  if p = [] then ['.']
  else
    let slashes : Nat :=
      if ['/', '/'].isPrefixOf p ∧ ¬ ['/', '/', '/'].isPrefixOf p then 2
      else if ['/'].isPrefixOf p then 1
      else 0
    let comps := p.splitOn '/'
    let flat := List.intercalate ['/'] (normComps slashes [] comps).reverse
    let out := List.replicate slashes '/' ++ flat
    if out = [] then ['.'] else out

/-- The loop body of `_archive_paths_are_safe`: `result` is computed from the
current `destination`, which is then given a trailing slash before the
prefix test and before the next iteration. -/
def archivePathsAreSafeAux : PStr → List PStr → Bool
  | _, [] => true
  | dest, n :: rest =>
    let result := normpath (pJoin dest n)
    let dest' := withSlash dest
    if dest'.isPrefixOf result then archivePathsAreSafeAux dest' rest else false

/-- `_archive_paths_are_safe(destination, archive)` where `names` is
`archive.getnames()`. -/
def archivePathsAreSafe (destination : PStr) (names : List PStr) : Bool :=
  archivePathsAreSafeAux destination names

/-- `ERROR_MESSAGE_PATH` from the module header. -/
def ERROR_MESSAGE_PATH : String :=
  "one or more units contains a path outside its base extraction path"

/-- The `DetailReport` structure: an ordered list of successful unit keys and
an ordered list of `(unit key, error message)` pairs. -/
structure DetailReport (κ : Type) where
  success_unit_keys : List κ
  errors : List (κ × String)
deriving DecidableEq, Repr

/-- `DetailReport.__init__`: both sequences start empty. -/
def DetailReport.empty (κ : Type) : DetailReport κ := ⟨[], []⟩

/-- `DetailReport.success(unit_key)`: append to the success sequence. -/
def DetailReport.success {κ : Type} (r : DetailReport κ) (k : κ) : DetailReport κ :=
  { r with success_unit_keys := r.success_unit_keys ++ [k] }

/-- `DetailReport.error(unit_key, message)`: append to the error sequence. -/
def DetailReport.error {κ : Type} (r : DetailReport κ) (k : κ) (msg : String) : DetailReport κ :=
  { r with errors := r.errors ++ [(k, msg)] }

/-- `DetailReport.has_errors`: true iff the error sequence is non-empty. -/
def DetailReport.has_errors {κ : Type} (r : DetailReport κ) : Bool :=
  !r.errors.isEmpty

/-- One immediate child of the destination directory: its name, whether it is
a directory, and opaque content (for a directory, the whole subtree). -/
structure FsEntry where
  name : PStr
  isDir : Bool
  data : Nat
deriving DecidableEq, Repr

/-- The destination directory's contents: its list of immediate children. -/
abbrev Fs := List FsEntry

instance {ε α : Type} [DecidableEq ε] [DecidableEq α] : DecidableEq (Except ε α) := fun x y =>
  match x, y with
  | .ok a, .ok b => if h : a = b then .isTrue (by rw [h]) else .isFalse (by simp [h])
  | .ok _, .error _ => .isFalse (by simp)
  | .error _, .ok _ => .isFalse (by simp)
  | .error e, .error f => if h : e = f then .isTrue (by rw [h]) else .isFalse (by simp [h])

/-- One installable unit, with its key and the outcomes the filesystem gives
for it: `names` is the result of `tarfile.open` + `getnames()` during the
safety check (error message on `OSError`/`IOError`), `extract` is the result
of `tarfile.open` + `extractall(destination)` during publishing (the entries
written on success, the error message on failure), and `partialWrite` is
whatever `extractall` had already written when it failed. -/
structure ContentUnit (κ : Type) where
  key : κ
  names : Except String (List PStr)
  extract : Except String Fs
  partialWrite : Fs
deriving DecidableEq, Repr

/-- One iteration of the `_check_for_unsafe_archive_paths` loop. -/
def checkUnit {κ : Type} (dest : PStr) (r : DetailReport κ) (u : ContentUnit κ) :
    DetailReport κ :=
  match u.names with
  | .error e => r.error u.key e
  | .ok ns => if archivePathsAreSafe dest ns then r else r.error u.key ERROR_MESSAGE_PATH

/-- `_check_for_unsafe_archive_paths(units, destination)` acting on the
distributor's detail report. -/
def checkForUnsafeArchivePaths {κ : Type} (dest : PStr) (units : List (ContentUnit κ))
    (r : DetailReport κ) : DetailReport κ :=
  units.foldl (checkUnit dest) r

/-- Whether an entry with the given name exists among the children. -/
def hasName (fs : Fs) (n : PStr) : Bool :=
  fs.any (fun e => e.name == n)

/-- `archive.extractall(destination)`: the written entries replace any
same-named existing children; other children are untouched. -/
def applyFs (fs new : Fs) : Fs :=
  new ++ fs.filter (fun e => !(hasName new e.name))

/-- One iteration of the `_clear_destination_directory` loop: look the listed
name up in the current state, and if it is a directory, remove it. -/
def clearStep (st : Fs) (n : PStr) : Fs :=
  match st.find? (fun e => e.name == n) with
  | some e => if e.isDir then st.filter (fun x => !(x.name == n)) else st
  | none => st

/-- `_clear_destination_directory(destination)`: take the `os.listdir`
snapshot, then delete each listed child that is a directory. -/
def clearDestinationDirectory (fs : Fs) : Fs :=
  (fs.map (fun e => e.name)).foldl clearStep fs

/-- State threaded through the publishing loop of `publish_repo`: the
destination contents, the detail report, and (as an observation) the keys of
the units for which extraction was attempted. -/
structure LoopState (κ : Type) where
  fs : Fs
  report : DetailReport κ
  attempted : List κ
deriving DecidableEq, Repr

/-- One iteration of the publishing loop: extract the unit's archive; record
a success, or record the raised error message after any partial write. -/
def publishUnit {κ : Type} (st : LoopState κ) (u : ContentUnit κ) : LoopState κ :=
  match u.extract with
  | .ok payload =>
    { fs := applyFs st.fs payload
      report := st.report.success u.key
      attempted := st.attempted ++ [u.key] }
  | .error e =>
    { fs := applyFs st.fs u.partialWrite
      report := st.report.error u.key e
      attempted := st.attempted ++ [u.key] }

/-- The value `publish_repo` returns together with the state it leaves
behind: the kind of report built, its top-level message, the distributor's
detail report, the destination contents, and (as observations) whether the
clearing phase was entered and which units had extraction attempted. -/
structure PublishResult (κ : Type) where
  isSuccess : Bool
  message : String
  report : DetailReport κ
  fs : Fs
  clearRan : Bool
  attempted : List κ
deriving DecidableEq, Repr

/-- The publishing loop of `publish_repo`, entered with the state left by the
clearing phase. -/
def publishLoop {κ : Type} (units : List (ContentUnit κ)) (fs1 : Fs) (r1 : DetailReport κ) :
    LoopState κ :=
  units.foldl publishUnit ⟨fs1, r1, []⟩

def publishRepoBody {κ : Type} (dest : PStr) (units : List (ContentUnit κ))
    (clearErr : Option (String × Fs)) (r0 : DetailReport κ) (fs0 : Fs) : PublishResult κ :=
  if (checkForUnsafeArchivePaths dest units r0).has_errors then
    ⟨false, "failed", checkForUnsafeArchivePaths dest units r0, fs0, false, []⟩
  else
    match clearErr with
    | some (e, fsPartial) =>
      ⟨false, "failed to clear destination directory: " ++ e,
       checkForUnsafeArchivePaths dest units r0, fsPartial, true, []⟩
    | none =>
      if (publishLoop units (clearDestinationDirectory fs0)
            (checkForUnsafeArchivePaths dest units r0)).report.has_errors then
        ⟨false, "failed",
         (publishLoop units (clearDestinationDirectory fs0)
           (checkForUnsafeArchivePaths dest units r0)).report,
         (publishLoop units (clearDestinationDirectory fs0)
           (checkForUnsafeArchivePaths dest units r0)).fs, true,
         (publishLoop units (clearDestinationDirectory fs0)
           (checkForUnsafeArchivePaths dest units r0)).attempted⟩
      else
        ⟨true, "success",
         (publishLoop units (clearDestinationDirectory fs0)
           (checkForUnsafeArchivePaths dest units r0)).report,
         (publishLoop units (clearDestinationDirectory fs0)
           (checkForUnsafeArchivePaths dest units r0)).fs, true,
         (publishLoop units (clearDestinationDirectory fs0)
           (checkForUnsafeArchivePaths dest units r0)).attempted⟩

/-- `publish_repo(repo, publish_conduit, config)`.  `destination` is the
configured install path (`none` or the empty string are falsy); `units` is
what `publish_conduit.get_units` returns; `clearErr` tells whether
`_clear_destination_directory` raises (with its message and the contents it
leaves behind); `r0` is the distributor's detail report on entry (fresh from
`__init__` unless the same distributor already published); `fs0` is the
destination's contents on entry. -/
def publishRepo {κ : Type} (destination : Option PStr) (units : List (ContentUnit κ))
    (clearErr : Option (String × Fs)) (r0 : DetailReport κ) (fs0 : Fs) : PublishResult κ :=
  match destination with
  | none =>
    ⟨false, "install path not provided", r0, fs0, false, []⟩
  | some [] =>
    ⟨false, "install path not provided", r0, fs0, false, []⟩
  | some dest =>
    publishRepoBody dest units clearErr r0 fs0

/-- A unit passes the safety check: its archive opens and lists, and every
entry name is safe. -/
def unitPassesCheck {κ : Type} (dest : PStr) (u : ContentUnit κ) : Bool :=
  match u.names with
  | .ok ns => archivePathsAreSafe dest ns
  | .error _ => false

/-- The error entry (if any) that the safety-check phase records for a
unit. -/
def checkErrEntry {κ : Type} (dest : PStr) (u : ContentUnit κ) : Option (κ × String) :=
  match u.names with
  | .error e => some (u.key, e)
  | .ok ns => if archivePathsAreSafe dest ns then none else some (u.key, ERROR_MESSAGE_PATH)

/-- Whether a unit's extraction succeeds. -/
def extractOk {κ : Type} (u : ContentUnit κ) : Bool :=
  match u.extract with
  | .ok _ => true
  | .error _ => false

/-- The entries a unit's extraction writes into the destination: the full
payload on success, the partial write left behind by the raised error on
failure. -/
def unitWrite {κ : Type} (u : ContentUnit κ) : Fs :=
  match u.extract with
  | .ok payload => payload
  | .error _ => u.partialWrite

/-- The error entry (if any) that the publishing loop records for a unit. -/
def extractErrEntry {κ : Type} (u : ContentUnit κ) : Option (κ × String) :=
  match u.extract with
  | .ok _ => none
  | .error e => some (u.key, e)

/-- Whether any of the given payload lists writes an entry with this name. -/
def namesIn (Ws : List Fs) (n : PStr) : Bool :=
  Ws.any (fun P => hasName P n)

/-- The per-name prefix test of the safety loop: the normalized join of
`destination` and the entry name keeps the slash-terminated destination as a
literal prefix. -/
def safeName (d n : PStr) : Bool :=
  (withSlash d).isPrefixOf (normpath (pJoin d n))

theorem withSlash_ne_nil (d : PStr) : withSlash d ≠ [] := by
  unfold withSlash
  split
  · rename_i h
    intro hnil
    rw [hnil] at h
    simp at h
  · simp

theorem getLast?_withSlash (d : PStr) : (withSlash d).getLast? = some '/' := by
  unfold withSlash
  split
  · assumption
  · exact List.getLast?_concat d

theorem withSlash_withSlash (d : PStr) : withSlash (withSlash d) = withSlash d :=
  if_pos (getLast?_withSlash d)

theorem pJoin_withSlash {d : PStr} (h : d ≠ []) (n : PStr) :
    pJoin (withSlash d) n = pJoin d n := by
  unfold pJoin
  by_cases hb : n.head? = some '/'
  · simp [hb]
  · simp only [hb, if_false]
    rw [if_neg (withSlash_ne_nil d), if_neg h, if_pos (getLast?_withSlash d)]
    by_cases hd : d.getLast? = some '/'
    · rw [if_pos hd]
      unfold withSlash
      rw [if_pos hd]
    · rw [if_neg hd]
      unfold withSlash
      rw [if_neg hd, List.append_assoc]
      rfl

theorem archivePathsAreSafeAux_withSlash {d : PStr} (h : d ≠ []) (names : List PStr) :
    archivePathsAreSafeAux (withSlash d) names = names.all (safeName d) := by
  induction names with
  | nil => rfl
  | cons n rest ih =>
    show (if (withSlash (withSlash d)).isPrefixOf (normpath (pJoin (withSlash d) n)) then
        archivePathsAreSafeAux (withSlash (withSlash d)) rest else false) = _
    rw [pJoin_withSlash h, withSlash_withSlash, ih, List.all_cons]
    show (if safeName d n = true then _ else false) = _
    cases safeName d n <;> simp

theorem archivePathsAreSafe_eq_all {d : PStr} (h : d ≠ []) (names : List PStr) :
    archivePathsAreSafe d names = names.all (safeName d) := by
  cases names with
  | nil => rfl
  | cons n rest =>
    show (if (withSlash d).isPrefixOf (normpath (pJoin d n)) then
        archivePathsAreSafeAux (withSlash d) rest else false) = _
    rw [archivePathsAreSafeAux_withSlash h, List.all_cons]
    show (if safeName d n = true then _ else false) = _
    cases safeName d n <;> simp

theorem checkForUnsafeArchivePaths_eq {κ : Type} (dest : PStr) (units : List (ContentUnit κ))
    (r : DetailReport κ) :
    checkForUnsafeArchivePaths dest units r =
      ⟨r.success_unit_keys, r.errors ++ units.filterMap (checkErrEntry dest)⟩ := by
  induction units generalizing r with
  | nil => simp [checkForUnsafeArchivePaths]
  | cons u us ih =>
    show checkForUnsafeArchivePaths dest us (checkUnit dest r u) = _
    rw [ih, List.filterMap_cons]
    cases hn : u.names with
    | error e => simp [checkUnit, checkErrEntry, hn, DetailReport.error]
    | ok ns =>
      by_cases hs : archivePathsAreSafe dest ns = true <;>
        simp [checkUnit, checkErrEntry, hn, hs, DetailReport.error]

theorem foldl_publishUnit_eq {κ : Type} (units : List (ContentUnit κ)) (st : LoopState κ) :
    units.foldl publishUnit st =
      ⟨(units.map unitWrite).foldl applyFs st.fs,
       ⟨st.report.success_unit_keys ++ (units.filter extractOk).map ContentUnit.key,
        st.report.errors ++ units.filterMap extractErrEntry⟩,
       st.attempted ++ units.map ContentUnit.key⟩ := by
  induction units generalizing st with
  | nil => simp
  | cons u us ih =>
    show us.foldl publishUnit (publishUnit st u) = _
    rw [ih]
    cases he : u.extract with
    | ok payload =>
      simp [publishUnit, unitWrite, extractOk, extractErrEntry, he, DetailReport.success]
    | error e =>
      simp [publishUnit, unitWrite, extractOk, extractErrEntry, he, DetailReport.error]

theorem foldl_clearStep_eq (ns : List PStr) (st : Fs)
    (h : (st.map FsEntry.name).Nodup) :
    ns.foldl clearStep st =
      st.filter (fun e => !(e.isDir && decide (e.name ∈ ns))) := by
  induction ns generalizing st with
  | nil =>
    simp
  | cons n ns ih =>
    show ns.foldl clearStep (clearStep st n) = _
    cases hf : st.find? (fun e => e.name == n) with
    | none =>
      have hcs : clearStep st n = st := by
        unfold clearStep
        rw [hf]
      rw [hcs, ih st h]
      apply List.filter_congr
      intro e he
      have hne : ¬(e.name == n) = true := (List.find?_eq_none.mp hf) e he
      have hne' : e.name ≠ n := by simpa using hne
      simp [hne']
    | some e0 =>
      have he0_mem : e0 ∈ st := List.mem_of_find?_eq_some hf
      have he0_name : e0.name = n := by
        have := List.find?_some hf
        simpa using this
      by_cases hd : e0.isDir = true
      · have hcs : clearStep st n = st.filter (fun x => !(x.name == n)) := by
          simp [clearStep, hf, hd]
        have hsubl : List.Sublist
            ((st.filter (fun x => !(x.name == n))).map FsEntry.name)
            (st.map FsEntry.name) := (List.filter_sublist st).map FsEntry.name
        rw [hcs, ih _ (hsubl.nodup h), List.filter_filter]
        apply List.filter_congr
        intro e he
        by_cases hen : e.name = n
        · have : e = e0 := List.inj_on_of_nodup_map h he he0_mem
            (by rw [hen, he0_name])
          subst this
          simp [hen, hd]
        · simp [hen]
      · have hcs : clearStep st n = st := by
          simp [clearStep, hf, hd]
        rw [hcs, ih st h]
        apply List.filter_congr
        intro e he
        by_cases hen : e.name = n
        · have : e = e0 := List.inj_on_of_nodup_map h he he0_mem
            (by rw [hen, he0_name])
          subst this
          simp [hd]
        · simp [hen]

theorem clearDestinationDirectory_eq (fs : Fs) (h : (fs.map FsEntry.name).Nodup) :
    clearDestinationDirectory fs = fs.filter (fun e => !e.isDir) := by
  unfold clearDestinationDirectory
  rw [foldl_clearStep_eq _ fs h]
  apply List.filter_congr
  intro e he
  have : e.name ∈ fs.map FsEntry.name := List.mem_map_of_mem _ he
  simp [this]

theorem publishRepo_eq_body {κ : Type} {d : PStr} (h : d ≠ [])
    (units : List (ContentUnit κ)) (clearErr : Option (String × Fs))
    (r0 : DetailReport κ) (fs0 : Fs) :
    publishRepo (some d) units clearErr r0 fs0 = publishRepoBody d units clearErr r0 fs0 := by
  cases d with
  | nil => exact absurd rfl h
  | cons c cs => rfl

theorem hasName_eq_true_iff (fs : Fs) (n : PStr) :
    hasName fs n = true ↔ n ∈ fs.map FsEntry.name := by
  simp [hasName, List.mem_map]

theorem foldl_applyFs_eq (Ws : List Fs) (A : Fs) :
    Ws.foldl applyFs A =
      Ws.foldl applyFs [] ++ A.filter (fun e => !(namesIn Ws e.name)) := by
  induction Ws generalizing A with
  | nil => simp [namesIn]
  | cons P Ws ih =>
    show Ws.foldl applyFs (applyFs A P) = Ws.foldl applyFs (applyFs [] P) ++ _
    have hnilP : applyFs [] P = P := by simp [applyFs]
    rw [hnilP, ih (applyFs A P), ih P]
    rw [List.append_assoc]
    congr 1
    unfold applyFs
    rw [List.filter_append, List.filter_filter]
    congr 1
    apply List.filter_congr
    intro e _
    simp [namesIn]
    cases hasName P e.name <;> cases Ws.any (fun P => hasName P e.name) <;> simp

theorem namesIn_of_mem_foldl {Ws : List Fs} {e : FsEntry}
    (he : e ∈ Ws.foldl applyFs []) : namesIn Ws e.name = true := by
  induction Ws with
  | nil => simp at he
  | cons P Ws ih =>
    have hnilP : applyFs [] P = P := by simp [applyFs]
    have hsplit : Ws.foldl applyFs P =
        Ws.foldl applyFs [] ++ P.filter (fun x => !(namesIn Ws x.name)) :=
      foldl_applyFs_eq Ws P
    have hstep : (P :: Ws).foldl applyFs [] = Ws.foldl applyFs P := by
      show Ws.foldl applyFs (applyFs [] P) = Ws.foldl applyFs P
      rw [hnilP]
    rw [hstep, hsplit] at he
    rcases List.mem_append.mp he with hmem | hmem
    · have := ih hmem
      simp [namesIn] at this ⊢
      exact Or.inr this
    · have hP : e ∈ P := (List.mem_filter.mp hmem).1
      have : hasName P e.name = true := by
        simp [hasName]
        exact ⟨e, hP, rfl⟩
      simp [namesIn]
      exact Or.inl (by simpa [hasName] using this)

theorem nodupNames_applyFs {A P : Fs} (hA : (A.map FsEntry.name).Nodup)
    (hP : (P.map FsEntry.name).Nodup) : ((applyFs A P).map FsEntry.name).Nodup := by
  unfold applyFs
  rw [List.map_append, List.nodup_append]
  refine ⟨hP, ?_, ?_⟩
  · exact (((List.filter_sublist A).map FsEntry.name).nodup hA)
  · intro x hxP hxF
    rcases List.mem_map.mp hxF with ⟨e, heF, hname⟩
    have hcond := (List.mem_filter.mp heF).2
    rw [hname] at hcond
    rw [← hasName_eq_true_iff P x] at hxP
    simp [hxP] at hcond

theorem nodupNames_foldl_applyFs {Ws : List Fs} {A : Fs}
    (hA : (A.map FsEntry.name).Nodup)
    (hWs : ∀ P ∈ Ws, (P.map FsEntry.name).Nodup) :
    (((Ws.foldl applyFs A)).map FsEntry.name).Nodup := by
  induction Ws generalizing A with
  | nil => exact hA
  | cons P Ws ih =>
    show (((Ws.foldl applyFs (applyFs A P))).map FsEntry.name).Nodup
    exact ih (nodupNames_applyFs hA (hWs P (by simp)))
      (fun Q hQ => hWs Q (by simp [hQ]))

theorem reinstall_fs_idem (Ws : List Fs) (fs0 : Fs)
    (h0 : (fs0.map FsEntry.name).Nodup)
    (hWs : ∀ P ∈ Ws, (P.map FsEntry.name).Nodup) :
    Ws.foldl applyFs
        (clearDestinationDirectory (Ws.foldl applyFs (clearDestinationDirectory fs0))) =
      Ws.foldl applyFs (clearDestinationDirectory fs0) := by
  have hC : clearDestinationDirectory fs0 = fs0.filter (fun e => !e.isDir) :=
    clearDestinationDirectory_eq fs0 h0
  rw [hC]
  have hCnodup : ((fs0.filter (fun e => !e.isDir)).map FsEntry.name).Nodup :=
    ((List.filter_sublist fs0).map FsEntry.name).nodup h0
  have hCfile : ∀ e ∈ fs0.filter (fun e => !e.isDir), e.isDir = false := by
    intro e he
    have := (List.mem_filter.mp he).2
    simpa using this
  have hF1nodup :
      (((Ws.foldl applyFs (fs0.filter (fun e => !e.isDir)))).map FsEntry.name).Nodup :=
    nodupNames_foldl_applyFs hCnodup hWs
  rw [clearDestinationDirectory_eq _ hF1nodup]
  have hsplit := foldl_applyFs_eq Ws (fs0.filter (fun e => !e.isDir))
  rw [hsplit, List.filter_append, List.filter_filter]
  rw [foldl_applyFs_eq Ws
    (List.filter (fun e => !e.isDir) (Ws.foldl applyFs []) ++
      List.filter (fun a => (!a.isDir && !namesIn Ws a.name))
        (fs0.filter (fun e => !e.isDir)))]
  rw [List.filter_append, List.filter_filter]
  have hG : List.filter (fun a => (!namesIn Ws a.name && !a.isDir)) (Ws.foldl applyFs [])
      = [] := by
    rw [List.filter_eq_nil_iff]
    intro e he
    have hin := namesIn_of_mem_foldl he
    simp [hin]
  rw [hG, List.nil_append]
  congr 1
  simp only [List.filter_filter]
  apply List.filter_congr
  intro e _
  cases namesIn Ws e.name <;> cases e.isDir <;> rfl

theorem checkErrEntry_eq_none_of_passes {κ : Type} {dest : PStr} {u : ContentUnit κ}
    (h : unitPassesCheck dest u = true) : checkErrEntry dest u = none := by
  cases hn : u.names with
  | error e => simp [unitPassesCheck, hn] at h
  | ok ns =>
    have hs : archivePathsAreSafe dest ns = true := by
      simpa [unitPassesCheck, hn] using h
    simp [checkErrEntry, hn, hs]

theorem check_all_pass {κ : Type} {dest : PStr} {units : List (ContentUnit κ)}
    (h : ∀ u ∈ units, unitPassesCheck dest u = true) (r : DetailReport κ) :
    checkForUnsafeArchivePaths dest units r = r := by
  rw [checkForUnsafeArchivePaths_eq]
  have hnil : units.filterMap (checkErrEntry dest) = [] :=
    List.filterMap_eq_nil_iff.mpr (fun u hu => checkErrEntry_eq_none_of_passes (h u hu))
  rw [hnil, List.append_nil]

theorem map_fst_checkErr_sublist {κ : Type} (dest : PStr) (units : List (ContentUnit κ)) :
    List.Sublist ((units.filterMap (checkErrEntry dest)).map Prod.fst)
      (units.map ContentUnit.key) := by
  induction units with
  | nil => simp
  | cons u us ih =>
    rw [List.filterMap_cons, List.map_cons]
    cases hn : u.names with
    | error e =>
      simp only [checkErrEntry, hn, List.map_cons]
      exact List.Sublist.cons₂ _ ih
    | ok ns =>
      by_cases hs : archivePathsAreSafe dest ns = true
      · simp only [checkErrEntry, hn, hs, if_true]
        exact List.Sublist.cons _ ih
      · simp only [checkErrEntry, hn, hs, if_false, List.map_cons]
        exact List.Sublist.cons₂ _ ih

theorem map_fst_extractErr_eq {κ : Type} (units : List (ContentUnit κ)) :
    (units.filterMap extractErrEntry).map Prod.fst =
      (units.filter (fun u => !extractOk u)).map ContentUnit.key := by
  induction units with
  | nil => rfl
  | cons u us ih =>
    rw [List.filterMap_cons, List.filter_cons]
    cases he : u.extract with
    | ok p => simp [extractErrEntry, extractOk, he, ih]
    | error e => simp [extractErrEntry, extractOk, he, ih]

theorem length_filterMap_extractErr {κ : Type} (units : List (ContentUnit κ)) :
    (units.filterMap extractErrEntry).length =
      (units.filter (fun u => !extractOk u)).length := by
  have h := congrArg List.length (map_fst_extractErr_eq units)
  simpa using h

theorem publishLoop_eq {κ : Type} (units : List (ContentUnit κ)) (fs1 : Fs)
    (r1 : DetailReport κ) :
    publishLoop units fs1 r1 =
      ⟨(units.map unitWrite).foldl applyFs fs1,
       ⟨r1.success_unit_keys ++ (units.filter extractOk).map ContentUnit.key,
        r1.errors ++ units.filterMap extractErrEntry⟩,
       units.map ContentUnit.key⟩ := by
  unfold publishLoop
  rw [foldl_publishUnit_eq]
  rfl

theorem count_partition_keys {κ : Type} [DecidableEq κ] (units : List (ContentUnit κ))
    (k : κ) :
    ((units.filter extractOk).map ContentUnit.key).count k +
        ((units.filter (fun u => !extractOk u)).map ContentUnit.key).count k =
      (units.map ContentUnit.key).count k := by
  have hperm : (units.filter extractOk ++ units.filter (fun u => !extractOk u)).Perm units :=
    List.filter_append_perm extractOk units
  have := (hperm.map ContentUnit.key).count_eq k
  rw [List.map_append, List.count_append] at this
  exact this

/-- C2: for every non-empty destination path `d` and every sequence of entry
names, `_archive_paths_are_safe` returns false iff some entry name's
normalized join with `d` does not have `d`, normalized to end with a path
separator, as a literal string prefix. -/
theorem archivePathsAreSafe_false_iff {d : PStr} (names : List PStr) (hd : d ≠ []) :
    archivePathsAreSafe d names = false ↔
      ∃ n ∈ names, (withSlash d).isPrefixOf (normpath (pJoin d n)) = false := by
  rw [archivePathsAreSafe_eq_all hd, List.all_eq_false]
  simp only [safeName, Bool.not_eq_true]

/-- Witness for C2 at destination `/d` and entry name `..`. -/
theorem archivePathsAreSafe_false_iff_witness :
    (['/', 'd'] : PStr) ≠ [] ∧
      (archivePathsAreSafe ['/', 'd'] [['.', '.']] = false ↔
        ∃ n ∈ [(['.', '.'] : PStr)],
          (withSlash ['/', 'd']).isPrefixOf (normpath (pJoin ['/', 'd'] n)) = false) :=
  ⟨by decide, archivePathsAreSafe_false_iff [['.', '.']] (by decide)⟩

/-- C5: the safety-check phase examines every unit regardless of earlier
failures: a unit with an unsafe path contributes exactly one error entry
carrying `ERROR_MESSAGE_PATH`, a unit whose archive fails to open or list
contributes one error entry carrying the I/O error message, a passing unit
contributes nothing, and the entries of all units are collected in order. -/
theorem checkPhase_records_each_unit {κ : Type} (dest : PStr)
    (units : List (ContentUnit κ)) (r : DetailReport κ) :
    checkForUnsafeArchivePaths dest units r =
      ⟨r.success_unit_keys,
       r.errors ++ units.filterMap (fun u =>
         match u.names with
         | .error e => some (u.key, e)
         | .ok ns =>
           if archivePathsAreSafe dest ns then none
           else some (u.key, ERROR_MESSAGE_PATH))⟩ :=
  checkForUnsafeArchivePaths_eq dest units r

/-- C7: clearing the destination deletes exactly the immediate children that
are directories and leaves every file directly under the destination
untouched (for a directory listing, whose names are distinct). -/
theorem clearDestination_deletes_exactly_dirs (fs : Fs)
    (h : (fs.map FsEntry.name).Nodup) :
    clearDestinationDirectory fs = fs.filter (fun e => !e.isDir) :=
  clearDestinationDirectory_eq fs h

/-- Witness for C7 on a destination holding one directory and one file. -/
theorem clearDestination_deletes_exactly_dirs_witness :
    (([⟨['a'], true, 0⟩, ⟨['b'], false, 1⟩] : Fs).map FsEntry.name).Nodup ∧
      clearDestinationDirectory [⟨['a'], true, 0⟩, ⟨['b'], false, 1⟩] =
        ([⟨['a'], true, 0⟩, ⟨['b'], false, 1⟩] : Fs).filter (fun e => !e.isDir) :=
  ⟨by decide, clearDestination_deletes_exactly_dirs _ (by decide)⟩

/-- C8: when the configured destination is absent or empty, `publish_repo`
immediately returns a failure with message "install path not provided" and
the fresh empty detail report, having checked, cleared and extracted
nothing (destination contents unchanged, clearing never entered, no
extraction attempted). -/
theorem publishRepo_missing_destination {κ : Type} (destination : Option PStr)
    (units : List (ContentUnit κ)) (clearErr : Option (String × Fs)) (fs0 : Fs)
    (h : destination = none ∨ destination = some []) :
    publishRepo destination units clearErr (DetailReport.empty κ) fs0 =
      ⟨false, "install path not provided", DetailReport.empty κ, fs0, false, []⟩ := by
  rcases h with h | h <;> subst h <;> rfl

/-- Witness for C8 at an absent destination. -/
theorem publishRepo_missing_destination_witness :
    ((none : Option PStr) = none ∨ (none : Option PStr) = some []) ∧
      publishRepo (κ := Nat) none [] none (DetailReport.empty Nat) [] =
        ⟨false, "install path not provided", DetailReport.empty Nat, [], false, []⟩ :=
  ⟨Or.inl rfl, publishRepo_missing_destination none [] none [] (Or.inl rfl)⟩

/-- C1: if the detail report has an error after the safety-check phase, the
operation returns a failure report with the destination contents unchanged,
the clearing phase never entered and no extraction attempted. -/
theorem publishRepo_unchanged_on_unsafe {κ : Type} {d : PStr}
    (units : List (ContentUnit κ)) (clearErr : Option (String × Fs))
    (r0 : DetailReport κ) (fs0 : Fs) (hd : d ≠ [])
    (herr : (checkForUnsafeArchivePaths d units r0).has_errors = true) :
    publishRepo (some d) units clearErr r0 fs0 =
      ⟨false, "failed", checkForUnsafeArchivePaths d units r0, fs0, false, []⟩ := by
  rw [publishRepo_eq_body hd]
  unfold publishRepoBody
  rw [if_pos herr]

/-- Witness for C1: a single unit whose archive contains the entry `..`. -/
theorem publishRepo_unchanged_on_unsafe_witness :
    (['/', 'd'] : PStr) ≠ [] ∧
      (checkForUnsafeArchivePaths ['/', 'd']
        [(⟨0, .ok [['.', '.']], .ok [], []⟩ : ContentUnit Nat)]
        (DetailReport.empty Nat)).has_errors = true ∧
      publishRepo (some ['/', 'd'])
          [(⟨0, .ok [['.', '.']], .ok [], []⟩ : ContentUnit Nat)] none
          (DetailReport.empty Nat) [⟨['x'], true, 0⟩] =
        ⟨false, "failed",
         checkForUnsafeArchivePaths ['/', 'd']
           [(⟨0, .ok [['.', '.']], .ok [], []⟩ : ContentUnit Nat)]
           (DetailReport.empty Nat),
         [⟨['x'], true, 0⟩], false, []⟩ :=
  ⟨by decide, by decide,
    publishRepo_unchanged_on_unsafe _ none _ _ (by decide) (by decide)⟩

/-- C4: when every unit passes the safety check but clearing the destination
raises, extraction is never attempted and the operation returns a failure
whose top-level message carries the clearing error message. -/
theorem publishRepo_clearing_failure_aborts {κ : Type} {d : PStr}
    (units : List (ContentUnit κ)) (e : String) (fsP : Fs) (fs0 : Fs) (hd : d ≠ [])
    (hpass : ∀ u ∈ units, unitPassesCheck d u = true) :
    publishRepo (some d) units (some (e, fsP)) (DetailReport.empty κ) fs0 =
      ⟨false, "failed to clear destination directory: " ++ e,
       DetailReport.empty κ, fsP, true, []⟩ := by
  rw [publishRepo_eq_body hd]
  unfold publishRepoBody
  rw [check_all_pass hpass]
  rfl

/-- Witness for C4: one clean unit, clearing raises "boom". -/
theorem publishRepo_clearing_failure_aborts_witness :
    (['/', 'd'] : PStr) ≠ [] ∧
      (∀ u ∈ [(⟨0, .ok [], .ok [], []⟩ : ContentUnit Nat)],
        unitPassesCheck ['/', 'd'] u = true) ∧
      publishRepo (some ['/', 'd']) [(⟨0, .ok [], .ok [], []⟩ : ContentUnit Nat)]
          (some ("boom", [])) (DetailReport.empty Nat) [⟨['x'], true, 0⟩] =
        ⟨false, "failed to clear destination directory: " ++ "boom",
         DetailReport.empty Nat, [], true, []⟩ :=
  ⟨by decide, by decide,
    publishRepo_clearing_failure_aborts _ "boom" [] _ (by decide) (by decide)⟩

/-- C10: with a provided destination and an empty unit list, `publish_repo`
still clears the destination (every top-level subdirectory is deleted,
top-level files are kept) and returns a success report whose success and
error sequences are both empty. -/
theorem publishRepo_empty_units_clears {κ : Type} {d : PStr} (fs0 : Fs)
    (hd : d ≠ []) (h0 : (fs0.map FsEntry.name).Nodup) :
    publishRepo (some d) ([] : List (ContentUnit κ)) none (DetailReport.empty κ) fs0 =
      ⟨true, "success", DetailReport.empty κ, fs0.filter (fun e => !e.isDir), true, []⟩ := by
  rw [publishRepo_eq_body hd]
  unfold publishRepoBody
  rw [clearDestinationDirectory_eq fs0 h0]
  rfl

/-- Witness for C10: a destination holding one directory and one file. -/
theorem publishRepo_empty_units_clears_witness :
    (['/', 'd'] : PStr) ≠ [] ∧
      ((([⟨['a'], true, 0⟩, ⟨['b'], false, 1⟩] : Fs)).map FsEntry.name).Nodup ∧
      publishRepo (some ['/', 'd']) ([] : List (ContentUnit Nat)) none
          (DetailReport.empty Nat) [⟨['a'], true, 0⟩, ⟨['b'], false, 1⟩] =
        ⟨true, "success", DetailReport.empty Nat,
         ([⟨['a'], true, 0⟩, ⟨['b'], false, 1⟩] : Fs).filter (fun e => !e.isDir),
         true, []⟩ :=
  ⟨by decide, by decide, publishRepo_empty_units_clears _ (by decide) (by decide)⟩

theorem unitPassesCheck_of_checkErrEntry_none {κ : Type} {dest : PStr} {u : ContentUnit κ}
    (h : checkErrEntry dest u = none) : unitPassesCheck dest u = true := by
  cases hn : u.names with
  | error e => simp [checkErrEntry, hn] at h
  | ok ns =>
    by_cases hs : archivePathsAreSafe dest ns = true
    · simp [unitPassesCheck, hn, hs]
    · simp [checkErrEntry, hn, hs] at h

theorem extractOk_of_extractErrEntry_none {κ : Type} {u : ContentUnit κ}
    (h : extractErrEntry u = none) : extractOk u = true := by
  cases he : u.extract with
  | ok p => simp [extractOk, he]
  | error e => simp [extractErrEntry, he] at h

theorem publishRepoBody_all_pass_clear_ok {κ : Type} (d : PStr)
    (units : List (ContentUnit κ)) (r0 : DetailReport κ) (fs0 : Fs)
    (hpass : ∀ u ∈ units, unitPassesCheck d u = true)
    (hr0 : r0.errors = []) :
    publishRepoBody d units none r0 fs0 =
      ⟨(units.filterMap extractErrEntry).isEmpty,
       if (units.filterMap extractErrEntry).isEmpty then "success" else "failed",
       ⟨r0.success_unit_keys ++ (units.filter extractOk).map ContentUnit.key,
        units.filterMap extractErrEntry⟩,
       (units.map unitWrite).foldl applyFs (clearDestinationDirectory fs0),
       true, units.map ContentUnit.key⟩ := by
  unfold publishRepoBody
  rw [check_all_pass hpass]
  have hhe : r0.has_errors = false := by simp [DetailReport.has_errors, hr0]
  rw [if_neg (by rw [hhe]; exact Bool.false_ne_true)]
  dsimp only
  rw [publishLoop_eq, hr0]
  by_cases hY : (units.filterMap extractErrEntry).isEmpty = true
  · rw [if_neg (by simp [DetailReport.has_errors, hY]), if_pos hY]
    simp [hY]
  · rw [if_pos (by simp [DetailReport.has_errors]; simpa using hY), if_neg hY]
    simp [Bool.eq_false_iff.mpr hY]

theorem body_count_le_one {κ : Type} [DecidableEq κ] (dest : PStr)
    (units : List (ContentUnit κ)) (clearErr : Option (String × Fs)) (fs0 : Fs) (k : κ)
    (hkeys : (units.map ContentUnit.key).Nodup) :
    ((publishRepoBody dest units clearErr (DetailReport.empty κ)
        fs0).report.success_unit_keys.count k)
      + (((publishRepoBody dest units clearErr (DetailReport.empty κ)
        fs0).report.errors.map Prod.fst).count k) ≤ 1 := by
  have hone : (units.map ContentUnit.key).count k ≤ 1 :=
    List.nodup_iff_count_le_one.mp hkeys k
  unfold publishRepoBody
  rw [checkForUnsafeArchivePaths_eq]
  simp only [DetailReport.empty, List.nil_append]
  by_cases hfm : units.filterMap (checkErrEntry dest) = []
  · rw [hfm]
    rw [if_neg (by simp [DetailReport.has_errors])]
    cases clearErr with
    | some p =>
      cases p with
      | mk e fsP => simp
    | none =>
      dsimp only
      rw [publishLoop_eq]
      split
      · dsimp only
        simp only [List.nil_append]
        rw [map_fst_extractErr_eq, count_partition_keys]
        exact hone
      · dsimp only
        simp only [List.nil_append]
        rw [map_fst_extractErr_eq, count_partition_keys]
        exact hone
  · rw [if_pos (by simp [DetailReport.has_errors, hfm])]
    dsimp only
    simp only [List.count_nil, Nat.zero_add]
    exact le_trans ((map_fst_checkErr_sublist dest units).count_le k) hone

/-- C6: through every branch of one install operation started on a fresh
distributor, when the unit keys are pairwise distinct, each unit key appears
in at most one of the report's two sequences and never more than once (the
report is append-only, so the bound at the end of the operation bounds every
intermediate state). -/
theorem publish_report_key_at_most_once {κ : Type} [DecidableEq κ]
    (destination : Option PStr) (units : List (ContentUnit κ))
    (clearErr : Option (String × Fs)) (fs0 : Fs) (k : κ)
    (hkeys : (units.map ContentUnit.key).Nodup) :
    ((publishRepo destination units clearErr (DetailReport.empty κ)
        fs0).report.success_unit_keys.count k)
      + (((publishRepo destination units clearErr (DetailReport.empty κ)
        fs0).report.errors.map Prod.fst).count k) ≤ 1 := by
  cases destination with
  | none => simp [publishRepo, DetailReport.empty]
  | some d =>
    cases d with
    | nil => simp [publishRepo, DetailReport.empty]
    | cons c cs => exact body_count_le_one (c :: cs) units clearErr fs0 k hkeys

/-- Witness for C6: two units with distinct keys, the second failing
extraction. -/
theorem publish_report_key_at_most_once_witness :
    (([(⟨0, .ok [], .ok [], []⟩ : ContentUnit Nat),
       ⟨1, .ok [], .error "disk full", []⟩].map ContentUnit.key).Nodup) ∧
      ((publishRepo (some ['/', 'd'])
          [(⟨0, .ok [], .ok [], []⟩ : ContentUnit Nat),
           ⟨1, .ok [], .error "disk full", []⟩] none (DetailReport.empty Nat)
          []).report.success_unit_keys.count 0)
        + (((publishRepo (some ['/', 'd'])
          [(⟨0, .ok [], .ok [], []⟩ : ContentUnit Nat),
           ⟨1, .ok [], .error "disk full", []⟩] none (DetailReport.empty Nat)
          []).report.errors.map Prod.fst).count 0) ≤ 1 :=
  ⟨by decide,
    publish_report_key_at_most_once (some ['/', 'd']) _ none [] 0 (by decide)⟩

/-- C3 counterexample: when the same unit (key 0) is listed twice, every
hypothesis of the claim holds — both units pass the safety check, clearing
succeeds, K = 0 units fail extraction — and the report does contain 0 error
entries and 2 = N−K success entries, but the unit key 0 appears twice across
the two sequences, not exactly once. -/
theorem publish_report_counts_counterexample :
    (∀ u ∈ [(⟨0, .ok [], .ok [], []⟩ : ContentUnit Nat), ⟨0, .ok [], .ok [], []⟩],
      unitPassesCheck ['/', 'd'] u = true) ∧
      (([(⟨0, .ok [], .ok [], []⟩ : ContentUnit Nat), ⟨0, .ok [], .ok [], []⟩].filter
          (fun u => !extractOk u)).length = 0) ∧
      (publishRepo (some ['/', 'd'])
          [(⟨0, .ok [], .ok [], []⟩ : ContentUnit Nat), ⟨0, .ok [], .ok [], []⟩] none
          (DetailReport.empty Nat) []).report.errors.length = 0 ∧
      ((publishRepo (some ['/', 'd'])
          [(⟨0, .ok [], .ok [], []⟩ : ContentUnit Nat), ⟨0, .ok [], .ok [], []⟩] none
          (DetailReport.empty Nat) []).report.success_unit_keys.count 0)
        + (((publishRepo (some ['/', 'd'])
          [(⟨0, .ok [], .ok [], []⟩ : ContentUnit Nat), ⟨0, .ok [], .ok [], []⟩] none
          (DetailReport.empty Nat) []).report.errors.map Prod.fst).count 0) = 2 := by
  decide

/-- C3 (amended): for every list of units *with pairwise distinct unit keys*
that all pass the safety check, with clearing succeeding and exactly K units
failing extraction with an I/O error, the final report has exactly K error
entries and N−K success entries, each unit key appears exactly once across
the two sequences, has_errors is true iff K > 0, and the overall result is a
failure iff K > 0. -/
theorem publish_report_counts {κ : Type} [DecidableEq κ] {d : PStr}
    (units : List (ContentUnit κ)) (fs0 : Fs) (K : Nat) (hd : d ≠ [])
    (hpass : ∀ u ∈ units, unitPassesCheck d u = true)
    (hkeys : (units.map ContentUnit.key).Nodup)
    (hK : (units.filter (fun u => !extractOk u)).length = K) :
    (publishRepo (some d) units none (DetailReport.empty κ) fs0).report.errors.length = K ∧
      (publishRepo (some d) units none
          (DetailReport.empty κ) fs0).report.success_unit_keys.length = units.length - K ∧
      (∀ k ∈ units.map ContentUnit.key,
        ((publishRepo (some d) units none
            (DetailReport.empty κ) fs0).report.success_unit_keys.count k)
          + (((publishRepo (some d) units none
            (DetailReport.empty κ) fs0).report.errors.map Prod.fst).count k) = 1) ∧
      ((publishRepo (some d) units none (DetailReport.empty κ) fs0).report.has_errors = true
        ↔ 0 < K) ∧
      ((publishRepo (some d) units none (DetailReport.empty κ) fs0).isSuccess = false
        ↔ 0 < K) := by
  rw [publishRepo_eq_body hd,
      publishRepoBody_all_pass_clear_ok d units (DetailReport.empty κ) fs0 hpass rfl]
  dsimp only
  simp only [DetailReport.empty, List.nil_append]
  have hlenE : (units.filterMap extractErrEntry).length = K := by
    rw [length_filterMap_extractErr]
    exact hK
  have hlenS : ((units.filter extractOk).map ContentUnit.key).length = units.length - K := by
    rw [List.length_map]
    have hperm := (List.filter_append_perm extractOk units).length_eq
    rw [List.length_append, hK] at hperm
    omega
  refine ⟨hlenE, hlenS, ?_, ?_, ?_⟩
  · intro k hk
    rw [map_fst_extractErr_eq, count_partition_keys]
    exact List.count_eq_one_of_mem hkeys hk
  · have hne : units.filterMap extractErrEntry = [] ↔ K = 0 := by
      constructor
      · intro h
        rw [h] at hlenE
        simpa using hlenE.symm
      · intro h
        rw [h] at hlenE
        exact List.length_eq_zero.mp hlenE
    simp only [DetailReport.has_errors]
    constructor
    · intro h
      rcases Nat.eq_zero_or_pos K with h0 | h0
      · rw [hne.mpr h0] at h
        simp at h
      · exact h0
    · intro hK0
      have hne' : units.filterMap extractErrEntry ≠ [] := by
        intro hnil
        have := hne.mp hnil
        omega
      simp [hne']
  · have hne : units.filterMap extractErrEntry = [] ↔ K = 0 := by
      constructor
      · intro h
        rw [h] at hlenE
        simpa using hlenE.symm
      · intro h
        rw [h] at hlenE
        exact List.length_eq_zero.mp hlenE
    constructor
    · intro h
      have hne' : units.filterMap extractErrEntry ≠ [] := List.isEmpty_eq_false.mp h
      rcases Nat.eq_zero_or_pos K with h0 | h0
      · exact absurd (hne.mpr h0) hne'
      · exact h0
    · intro hK0
      refine List.isEmpty_eq_false.mpr ?_
      intro hnil
      have := hne.mp hnil
      omega

/-- Witness for C3 (amended): two units with distinct keys, the second
failing extraction with "disk full" (N = 2, K = 1). -/
theorem publish_report_counts_witness :
    ((['/', 'd'] : PStr) ≠ [] ∧
      (∀ u ∈ [(⟨0, .ok [], .ok [], []⟩ : ContentUnit Nat),
          ⟨1, .ok [], .error "disk full", []⟩], unitPassesCheck ['/', 'd'] u = true) ∧
      (([(⟨0, .ok [], .ok [], []⟩ : ContentUnit Nat),
          ⟨1, .ok [], .error "disk full", []⟩].map ContentUnit.key).Nodup)) ∧
      (publishRepo (some ['/', 'd'])
          [(⟨0, .ok [], .ok [], []⟩ : ContentUnit Nat),
           ⟨1, .ok [], .error "disk full", []⟩] none
          (DetailReport.empty Nat) []).report.errors.length = 1 ∧
      (publishRepo (some ['/', 'd'])
          [(⟨0, .ok [], .ok [], []⟩ : ContentUnit Nat),
           ⟨1, .ok [], .error "disk full", []⟩] none
          (DetailReport.empty Nat) []).report.success_unit_keys.length =
        ([(⟨0, .ok [], .ok [], []⟩ : ContentUnit Nat),
          ⟨1, .ok [], .error "disk full", []⟩] : List (ContentUnit Nat)).length - 1 ∧
      (∀ k ∈ ([(⟨0, .ok [], .ok [], []⟩ : ContentUnit Nat),
          ⟨1, .ok [], .error "disk full", []⟩] : List (ContentUnit Nat)).map ContentUnit.key,
        ((publishRepo (some ['/', 'd'])
            [(⟨0, .ok [], .ok [], []⟩ : ContentUnit Nat),
             ⟨1, .ok [], .error "disk full", []⟩] none
            (DetailReport.empty Nat) []).report.success_unit_keys.count k)
          + (((publishRepo (some ['/', 'd'])
            [(⟨0, .ok [], .ok [], []⟩ : ContentUnit Nat),
             ⟨1, .ok [], .error "disk full", []⟩] none
            (DetailReport.empty Nat) []).report.errors.map Prod.fst).count k) = 1) ∧
      ((publishRepo (some ['/', 'd'])
          [(⟨0, .ok [], .ok [], []⟩ : ContentUnit Nat),
           ⟨1, .ok [], .error "disk full", []⟩] none
          (DetailReport.empty Nat) []).report.has_errors = true ↔ 0 < 1) ∧
      ((publishRepo (some ['/', 'd'])
          [(⟨0, .ok [], .ok [], []⟩ : ContentUnit Nat),
           ⟨1, .ok [], .error "disk full", []⟩] none
          (DetailReport.empty Nat) []).isSuccess = false ↔ 0 < 1) :=
  ⟨⟨by decide, by decide, by decide⟩,
    publish_report_counts _ [] 1 (by decide) (by decide) (by decide) (by decide)⟩

/-- C9 counterexample: one unit installed twice on the same distributor with
identical inputs.  Both runs succeed and leave the same destination
contents, but the second run's report is not equivalent to the first's: the
detail report lives on the distributor instance (created in `__init__`), so
the success key is appended again. -/
theorem publish_twice_counterexample :
    (publishRepo (some ['/', 'd'])
        [(⟨7, .ok [], .ok [⟨['m'], true, 5⟩], []⟩ : ContentUnit Nat)] none
        (DetailReport.empty Nat) []).isSuccess = true ∧
      (publishRepo (some ['/', 'd'])
          [(⟨7, .ok [], .ok [⟨['m'], true, 5⟩], []⟩ : ContentUnit Nat)] none
          (publishRepo (some ['/', 'd'])
            [(⟨7, .ok [], .ok [⟨['m'], true, 5⟩], []⟩ : ContentUnit Nat)] none
            (DetailReport.empty Nat) []).report
          (publishRepo (some ['/', 'd'])
            [(⟨7, .ok [], .ok [⟨['m'], true, 5⟩], []⟩ : ContentUnit Nat)] none
            (DetailReport.empty Nat) []).fs).fs =
        (publishRepo (some ['/', 'd'])
          [(⟨7, .ok [], .ok [⟨['m'], true, 5⟩], []⟩ : ContentUnit Nat)] none
          (DetailReport.empty Nat) []).fs ∧
      (publishRepo (some ['/', 'd'])
          [(⟨7, .ok [], .ok [⟨['m'], true, 5⟩], []⟩ : ContentUnit Nat)] none
          (publishRepo (some ['/', 'd'])
            [(⟨7, .ok [], .ok [⟨['m'], true, 5⟩], []⟩ : ContentUnit Nat)] none
            (DetailReport.empty Nat) []).report
          (publishRepo (some ['/', 'd'])
            [(⟨7, .ok [], .ok [⟨['m'], true, 5⟩], []⟩ : ContentUnit Nat)] none
            (DetailReport.empty Nat) []).fs).report ≠
        (publishRepo (some ['/', 'd'])
          [(⟨7, .ok [], .ok [⟨['m'], true, 5⟩], []⟩ : ContentUnit Nat)] none
          (DetailReport.empty Nat) []).report := by
  decide

/-- C9 (amended): rerunning the same successful install on the same
distributor with identical inputs yields the same final destination
directory contents, and the second run also succeeds with no errors, but
its report is not equivalent: the detail report persists on the distributor
(created once in `__init__`), so the second report carries the success keys
twice.  Equivalent reports would require a fresh distributor per run. -/
theorem publish_twice_same_fs_report_appends {κ : Type} {d : PStr}
    (units : List (ContentUnit κ)) (fs0 : Fs) (hd : d ≠ [])
    (hsucc : (publishRepo (some d) units none (DetailReport.empty κ) fs0).isSuccess = true)
    (h0 : (fs0.map FsEntry.name).Nodup)
    (hW : ∀ u ∈ units, ((unitWrite u).map FsEntry.name).Nodup) :
    (publishRepo (some d) units none
        (publishRepo (some d) units none (DetailReport.empty κ) fs0).report
        (publishRepo (some d) units none (DetailReport.empty κ) fs0).fs).isSuccess = true ∧
      (publishRepo (some d) units none
          (publishRepo (some d) units none (DetailReport.empty κ) fs0).report
          (publishRepo (some d) units none (DetailReport.empty κ) fs0).fs).fs =
        (publishRepo (some d) units none (DetailReport.empty κ) fs0).fs ∧
      (publishRepo (some d) units none
          (publishRepo (some d) units none (DetailReport.empty κ) fs0).report
          (publishRepo (some d) units none (DetailReport.empty κ) fs0).fs
        ).report.success_unit_keys =
        (publishRepo (some d) units none
            (DetailReport.empty κ) fs0).report.success_unit_keys ++
          (publishRepo (some d) units none
            (DetailReport.empty κ) fs0).report.success_unit_keys ∧
      (publishRepo (some d) units none
          (publishRepo (some d) units none (DetailReport.empty κ) fs0).report
          (publishRepo (some d) units none (DetailReport.empty κ) fs0).fs).report.errors
        = [] := by
  have hcheck : (checkForUnsafeArchivePaths d units (DetailReport.empty κ)).has_errors
      = false := by
    by_contra hc
    have hc' : (checkForUnsafeArchivePaths d units (DetailReport.empty κ)).has_errors
        = true := by
      cases hb : (checkForUnsafeArchivePaths d units (DetailReport.empty κ)).has_errors
      · exact absurd hb hc
      · rfl
    rw [publishRepo_eq_body hd] at hsucc
    unfold publishRepoBody at hsucc
    rw [if_pos hc'] at hsucc
    simp at hsucc
  have hfm : units.filterMap (checkErrEntry d) = [] := by
    rw [checkForUnsafeArchivePaths_eq] at hcheck
    simpa [DetailReport.has_errors, DetailReport.empty, List.isEmpty_iff] using hcheck
  have hpass : ∀ u ∈ units, unitPassesCheck d u = true := fun u hu =>
    unitPassesCheck_of_checkErrEntry_none (List.filterMap_eq_nil_iff.mp hfm u hu)
  have hrun1 : publishRepo (some d) units none (DetailReport.empty κ) fs0 =
      ⟨(units.filterMap extractErrEntry).isEmpty,
       if (units.filterMap extractErrEntry).isEmpty then "success" else "failed",
       ⟨(DetailReport.empty κ).success_unit_keys ++
          (units.filter extractOk).map ContentUnit.key,
        units.filterMap extractErrEntry⟩,
       (units.map unitWrite).foldl applyFs (clearDestinationDirectory fs0),
       true, units.map ContentUnit.key⟩ := by
    rw [publishRepo_eq_body hd]
    exact publishRepoBody_all_pass_clear_ok d units (DetailReport.empty κ) fs0 hpass rfl
  have hE : units.filterMap extractErrEntry = [] := by
    rw [hrun1] at hsucc
    simpa [List.isEmpty_iff] using hsucc
  have hok : ∀ u ∈ units, extractOk u = true := fun u hu =>
    extractOk_of_extractErrEntry_none (List.filterMap_eq_nil_iff.mp hE u hu)
  have hfilter : units.filter extractOk = units := List.filter_eq_self.mpr hok
  have hrun2 : publishRepo (some d) units none
      (publishRepo (some d) units none (DetailReport.empty κ) fs0).report
      (publishRepo (some d) units none (DetailReport.empty κ) fs0).fs =
      ⟨(units.filterMap extractErrEntry).isEmpty,
       if (units.filterMap extractErrEntry).isEmpty then "success" else "failed",
       ⟨(publishRepo (some d) units none
            (DetailReport.empty κ) fs0).report.success_unit_keys ++
          (units.filter extractOk).map ContentUnit.key,
        units.filterMap extractErrEntry⟩,
       (units.map unitWrite).foldl applyFs (clearDestinationDirectory
         (publishRepo (some d) units none (DetailReport.empty κ) fs0).fs),
       true, units.map ContentUnit.key⟩ := by
    rw [publishRepo_eq_body hd]
    refine publishRepoBody_all_pass_clear_ok d units _ _ hpass ?_
    rw [hrun1]
    exact hE
  have hWlist : ∀ P ∈ units.map unitWrite, (P.map FsEntry.name).Nodup := by
    intro P hP
    rcases List.mem_map.mp hP with ⟨u, hu, rfl⟩
    exact hW u hu
  have hfs : (units.map unitWrite).foldl applyFs (clearDestinationDirectory
      (publishRepo (some d) units none (DetailReport.empty κ) fs0).fs) =
      (publishRepo (some d) units none (DetailReport.empty κ) fs0).fs := by
    rw [hrun1]
    exact reinstall_fs_idem (units.map unitWrite) fs0 h0 hWlist
  refine ⟨?_, ?_, ?_, ?_⟩
  · rw [hrun2, hE]
    rfl
  · rw [hrun2]
    exact hfs
  · rw [hrun2, hrun1]
    simp [DetailReport.empty, hfilter]
  · rw [hrun2]
    exact hE

/-- Witness for C9 (amended): one unit writing the directory `m`, on a
destination holding one file. -/
theorem publish_twice_same_fs_report_appends_witness :
    ((['/', 'd'] : PStr) ≠ [] ∧
      (publishRepo (some ['/', 'd'])
        [(⟨7, .ok [], .ok [⟨['m'], true, 5⟩], []⟩ : ContentUnit Nat)] none
        (DetailReport.empty Nat) [⟨['b'], false, 1⟩]).isSuccess = true) ∧
      (publishRepo (some ['/', 'd'])
          [(⟨7, .ok [], .ok [⟨['m'], true, 5⟩], []⟩ : ContentUnit Nat)] none
          (publishRepo (some ['/', 'd'])
            [(⟨7, .ok [], .ok [⟨['m'], true, 5⟩], []⟩ : ContentUnit Nat)] none
            (DetailReport.empty Nat) [⟨['b'], false, 1⟩]).report
          (publishRepo (some ['/', 'd'])
            [(⟨7, .ok [], .ok [⟨['m'], true, 5⟩], []⟩ : ContentUnit Nat)] none
            (DetailReport.empty Nat) [⟨['b'], false, 1⟩]).fs).fs =
        (publishRepo (some ['/', 'd'])
          [(⟨7, .ok [], .ok [⟨['m'], true, 5⟩], []⟩ : ContentUnit Nat)] none
          (DetailReport.empty Nat) [⟨['b'], false, 1⟩]).fs :=
  ⟨⟨by decide, by decide⟩,
    (publish_twice_same_fs_report_appends _ _ (by decide) (by decide) (by decide)
      (by decide)).2.1⟩

end InstallDistributor

